import Mathlib

/-!
Verification development for the prob-find repository (GitHub opportunity
scraper).  The Python modules under src/ are shallowly embedded as Lean
definitions:

* src/models.py      — pydantic data models (GitHubIssue, OpportunityAnalysis)
* src/analyzer.py    — Gemini scoring gateway (OpportunityAnalyzer)
* src/github_fetcher.py — repository classifier, searched-repository cache,
                          issue fetching (GitHubFetcher)
* src/output.py      — merge-on-write result store (OutputWriter)

Modelling conventions: Python datetimes are abstracted as their rendered
strings; Python sets are lists without duplicates; file I/O is made explicit
by passing the would-be file contents in and out of the functions; external
API calls (GitHub search, Gemini generate_content) are passed in as values
describing the observed response.  Python `int` is modelled as `Int` (counts
that the GitHub API guarantees non-negative are modelled as `Nat`).
-/

namespace ProbFind

/-! ### String helpers

Python string operations used by the sources, modelled on `List Char`
(Lean's `String.toLower` does not reduce in the kernel, so we map
`Char.toLower` over the underlying character list; the repository's inputs
of interest are ASCII, where this agrees with Python `str.lower`). -/

/-- Python `s.lower()`, as the character list of the lowered string. -/
def lowerStr (s : String) : List Char := s.data.map Char.toLower

/-- Python `s.upper()`, as the character list of the uppered string. -/
def upperStr (s : String) : List Char := s.data.map Char.toUpper

/-- Python substring test `kw in text` (case-sensitive, no word boundaries). -/
def pyContains (text : List Char) (kw : String) : Bool :=
  decide (kw.data <:+: text)

/-! ### src/models.py -/

/-- Model of `GitHubIssue` (src/models.py lines 8-23).  The two datetime
fields are abstracted as their rendered strings. -/
structure GitHubIssue where
  repo : String
  repo_full_name : String
  issue_number : Nat
  title : String
  body : String
  url : String
  labels : List String
  reactions : Nat
  comments : Nat
  created_at : String
  updated_at : String
  state : String
  author : String
deriving DecidableEq, Repr

/-- Model of `OpportunityAnalysis` (src/models.py lines 26-47) after
validation: four sub-scores, the derived total, and the text fields. -/
structure OpportunityAnalysis where
  market_potential : Int
  technical_feasibility : Int
  competition : Int
  monetization_fit : Int
  total_score : Int
  opportunity_summary : String
  product_idea : Option String
  skip_reason : Option String
deriving DecidableEq, Repr

/-- Pydantic range check `Field(ge=1, le=10)` on a sub-score. -/
def validScore (n : Int) : Bool := decide (1 ≤ n) && decide (n ≤ 10)

/-- Construction of an `OpportunityAnalysis` from the raw field values of a
scoring response.  Pydantic validates each sub-score against `ge=1, le=10`
and requires `total_score` to be present (it has no default), failing
validation otherwise; then `model_post_init` (src/models.py lines 38-47)
unconditionally overwrites `total_score` with the sum of the four
sub-scores, whatever integer the response carried. -/
def mkOpportunityAnalysis (mp tf comp mf : Int) (total_raw : Option Int)
    (summary : String) (product_idea skip_reason : Option String) :
    Option OpportunityAnalysis :=
  if validScore mp && validScore tf && validScore comp && validScore mf
      && total_raw.isSome then
    some { market_potential := mp
           technical_feasibility := tf
           competition := comp
           monetization_fit := mf
           total_score := mp + tf + comp + mf
           opportunity_summary := summary
           product_idea := product_idea
           skip_reason := skip_reason }
  else
    none

/-! ### src/analyzer.py -/

/-- Shape of an exception raised by the Gemini SDK, as probed by
`OpportunityAnalyzer._is_rate_limit_error` (src/analyzer.py lines 79-96):
which library exception classes it is an instance of, its optional `code`
attribute (an int or a string; any other Python type behaves like an absent
attribute since both `isinstance` probes then fail), and its `str(...)`
rendering. -/
structure GeminiError where
  isRateLimitInstance : Bool
  isResourceExhaustedInstance : Bool
  code : Option (Sum Int String)
  message : String
deriving DecidableEq, Repr

/-- Model of `OpportunityAnalyzer._is_rate_limit_error`
(src/analyzer.py lines 79-96). -/
def is_rate_limit_error (e : GeminiError) : Bool :=
  e.isRateLimitInstance ||
  e.isResourceExhaustedInstance ||
  (match e.code with
   | some (Sum.inl n) => decide (n = 429)
   | _ => false) ||
  (match e.code with
   | some (Sum.inr s) => decide (upperStr s = "RESOURCE_EXHAUSTED".data)
   | _ => false) ||
  (pyContains (lowerStr e.message) "rate limit" ||
   pyContains (lowerStr e.message) "quota" ||
   pyContains (lowerStr e.message) "resource exhausted")

/-- Raw field values of a structured scoring response, before pydantic
validation.  `total_score` is optional: the backend may omit it. -/
structure RawAnalysisResponse where
  market_potential : Int
  technical_feasibility : Int
  competition : Int
  monetization_fit : Int
  total_score : Option Int
  opportunity_summary : String
  product_idea : Option String
  skip_reason : Option String
deriving DecidableEq, Repr

/-- Parsing a raw scoring response through the pydantic model, as the SDK
does to produce `response.parsed`; an invalid response yields `none`. -/
def parseResponse (r : RawAnalysisResponse) : Option OpportunityAnalysis :=
  mkOpportunityAnalysis r.market_potential r.technical_feasibility
    r.competition r.monetization_fit r.total_score r.opportunity_summary
    r.product_idea r.skip_reason

/-- Observed outcome of one `client.models.generate_content` call:
either a response whose `parsed` field is an optional raw analysis, or a
raised exception. -/
inductive GenerateOutcome where
  | ok (parsed : Option RawAnalysisResponse)
  | err (e : GeminiError)
deriving DecidableEq, Repr

/-- Model of `OpportunityAnalyzer._ensure_total_score`
(src/analyzer.py lines 131-145).  The Python code recomputes `total_score`
only when `isinstance(analysis.total_score, int)` fails; every value
produced by the pydantic model has an `int` there, which the typed
embedding reflects by `total_score : Int`, so the guard always holds and
the function returns its argument unchanged. -/
def ensure_total_score (a : OpportunityAnalysis) : OpportunityAnalysis := a

/-- The exception `analyze_issue` can propagate
(src/exceptions.py line 8). -/
inductive AnalyzeError where
  | geminiRateLimitExceeded
deriving DecidableEq, Repr

/-- Result of one `OpportunityAnalyzer.analyze_issue` call, together with
bookkeeping of whether the fallback model was attempted and how many times
`_rate_limit` ran. -/
structure AnalyzeResult where
  outcome : Except AnalyzeError (Option OpportunityAnalysis)
  fallbackAttempted : Bool
  rateLimitCalls : Nat
deriving Repr

/-- Model of `OpportunityAnalyzer.analyze_issue`
(src/analyzer.py lines 147-210), as a function of the outcomes of the
primary and fallback `generate_content` calls.  `_rate_limit` runs once
before the primary call and once more before any fallback call. -/
def analyze_issue (model fallback_model : String)
    (primary fallback : GenerateOutcome) : AnalyzeResult :=
  match primary with
  | GenerateOutcome.ok p =>
      { outcome := Except.ok ((p.bind parseResponse).map ensure_total_score)
        fallbackAttempted := false
        rateLimitCalls := 1 }
  | GenerateOutcome.err e =>
      if is_rate_limit_error e then
        { outcome := Except.error AnalyzeError.geminiRateLimitExceeded
          fallbackAttempted := false
          rateLimitCalls := 1 }
      else if model ≠ fallback_model then
        match fallback with
        | GenerateOutcome.ok p =>
            { outcome := Except.ok ((p.bind parseResponse).map ensure_total_score)
              fallbackAttempted := true
              rateLimitCalls := 2 }
        | GenerateOutcome.err e2 =>
            if is_rate_limit_error e2 then
              { outcome := Except.error AnalyzeError.geminiRateLimitExceeded
                fallbackAttempted := true
                rateLimitCalls := 2 }
            else
              { outcome := Except.ok none
                fallbackAttempted := true
                rateLimitCalls := 2 }
      else
        { outcome := Except.ok none
          fallbackAttempted := false
          rateLimitCalls := 1 }

/-! ### Rate limiter (src/analyzer.py lines 74-77 and 98-107)

Wall-clock time is modelled as `ℚ`.  One `_rate_limit()` call reads the
clock (`now`), sleeps for `min_delay - (now - last_request_time)` when that
is positive, reads the clock again and stores the second reading in
`last_request_time` — the request then starts.  The two clock readings of
call `i` are recorded in a `RateLimitStep`; `ValidStep` states the only
facts the real system guarantees about them: the clock is monotone and
`time.sleep` sleeps for at least the requested duration, so the second
reading is at least `now` plus the requested sleep. -/

/-- Model of `self.min_delay = 60.0 / requests_per_minute`
(src/analyzer.py line 76). -/
def min_delay (requests_per_minute : ℕ) : ℚ := 60 / requests_per_minute

/-- Sleep duration requested by `_rate_limit` when the previous request
started at `last` and the clock now reads `now`
(src/analyzer.py lines 100-105). -/
def sleepNeeded (d last now : ℚ) : ℚ :=
  if now - last < d then d - (now - last) else 0

/-- Clock readings of one `_rate_limit()` call: `now` on entry, `after`
once the sleep (if any) has completed; `after` becomes the new
`last_request_time` and is the request's start time. -/
structure RateLimitStep where
  now : ℚ
  after : ℚ
deriving DecidableEq, Repr

/-- What the monotone clock and `time.sleep` guarantee about one call. -/
def ValidStep (d last : ℚ) (s : RateLimitStep) : Prop :=
  s.now + sleepNeeded d last s.now ≤ s.after

/-- A sequence of `_rate_limit()` calls threading `last_request_time`. -/
def ValidRun (d : ℚ) : ℚ → List RateLimitStep → Prop
  | _, [] => True
  | last, s :: rest => ValidStep d last s ∧ ValidRun d s.after rest

/-- The request start times of a run: each call's final clock reading,
stored into `last_request_time` just before the request is issued. -/
def requestStarts (steps : List RateLimitStep) : List ℚ :=
  steps.map RateLimitStep.after

/-! ### src/github_fetcher.py — repository classifier -/

/-- Verbatim model of `GitHubFetcher.EXCLUDED_REPO_KEYWORDS`
(src/github_fetcher.py lines 23-61). -/
def EXCLUDED_REPO_KEYWORDS : List String :=
  ["awesome", "course", "courses", "bootcamp", "boot camp", "curriculum",
   "tutorial", "tutorials", "tutorial-code", "docs", "documentation",
   "guide", "guides", "handbook", "roadmap", "roadmaps", "learning",
   "learn-", "learn ", "interview", "coding-interview", "coding interview",
   "cheatsheet", "cheat-sheet", "book", "Microsoft-Activation-Scripts",
   "bootstrap", "books", "ebook", "ebooks", "syllabus", "boot.dev",
   "codecrafters", "freecodecamp", "system-design-primer",
   "free-programming", "developer-roadmap"]

/-- Model of `GitHubFetcher._is_tool_repository`
(src/github_fetcher.py lines 181-194): lower-case
`f"{repo.full_name} {(repo.description or '')}"`, reject on any keyword
hit (Python `in`, case-sensitive against the lowered text), reject when
archived, otherwise accept.  `description` is `none` when the repository
has no description (Python `None`). -/
def is_tool_repository (full_name : String) (description : Option String)
    (archived : Bool) : Bool :=
  let text := lowerStr (full_name ++ " " ++ description.getD "")
  if EXCLUDED_REPO_KEYWORDS.any (fun kw => pyContains text kw) then false
  else if archived then false
  else true

/-- The classifier rejection condition exactly as claim C2 words it: some
denylist keyword appears case-insensitively (both sides lowered) as a
substring of "full_name description", or the repository is archived.
Stated from the claim, to be compared with `is_tool_repository`. -/
def claimedRejectCondition (full_name : String) (description : Option String)
    (archived : Bool) : Prop :=
  (∃ kw ∈ EXCLUDED_REPO_KEYWORDS,
      lowerStr kw <:+: lowerStr (full_name ++ " " ++ description.getD "")) ∨
  archived = true

/-! ### src/github_fetcher.py — searched-repository cache -/

/-- Python `set.add` on a set modelled as a duplicate-free list. -/
def setInsert (l : List String) (x : String) : List String :=
  if x ∈ l then l else l ++ [x]

/-- Contents written by `GitHubFetcher._save_cache`
(src/github_fetcher.py lines 155-170): the JSON object with the sorted
repository list and the human-readable timestamp string. -/
structure CacheFileData where
  repositories : List String
  last_updated : String
deriving DecidableEq, Repr

/-- The "repositories" value of a parsed cache-file object, classified by
how `set(repos)` (src/github_fetcher.py line 150) behaves on it: a JSON
array of strings — the shape `_save_cache` itself writes — converts to a
set of strings, while a value that `set` cannot consume (a number, null,
a boolean, or an array holding unhashable elements) raises `TypeError`.
(Other exotic iterables that `set` does accept, such as a string or an
object, are subsumed by `strList` up to the resulting element set.) -/
inductive ReposValue where
  | strList (repos : List String)
  | setRejects
deriving DecidableEq, Repr

/-- Cache-relevant shape of a successfully parsed cache file: a JSON
object whose "repositories" key is optional (`data.get` defaults to `[]`)
and whose value is classified by `ReposValue`, or a well-formed JSON
document whose top level is not an object (on which `data.get` raises
`AttributeError`). -/
inductive CacheFileJson where
  | obj (repositories : Option ReposValue)
  | nonObject
deriving DecidableEq, Repr

/-- State of the cache file as seen by `GitHubFetcher._load_cache`:
absent; bytes that are not valid UTF-8, so reading under
`encoding="utf-8"` raises `UnicodeDecodeError` (not one of the caught
classes); unreadable via an `IOError` on open/read or a
`json.JSONDecodeError` while parsing (the two exception classes the code
catches); or parsed content. -/
inductive CacheFileState where
  | absent
  | undecodable
  | unreadable
  | content (j : CacheFileJson)
deriving DecidableEq, Repr

/-- A Python exception that `_load_cache` does not catch. -/
inductive PyError where
  | attributeError
  | typeError
  | unicodeDecodeError
deriving DecidableEq, Repr

/-- Model of `GitHubFetcher._load_cache`
(src/github_fetcher.py lines 142-153).  Returns the loaded repository set
(as a duplicate-free list) plus whether the warning was printed, or the
uncaught exception.  The `except (json.JSONDecodeError, IOError)` clause
covers only the `unreadable` state; a file whose bytes are not valid
UTF-8 raises `UnicodeDecodeError` out of `json.load(f)`, a parsed
document whose top level is not a dict makes
`data.get("repositories", [])` raise `AttributeError`, and a
"repositories" value that `set` cannot consume makes `set(repos)` raise
`TypeError` — all three propagate out of construction. -/
def load_cache : CacheFileState → Except PyError (List String × Bool)
  | CacheFileState.absent => Except.ok ([], false)
  | CacheFileState.undecodable => Except.error PyError.unicodeDecodeError
  | CacheFileState.unreadable => Except.ok ([], true)
  | CacheFileState.content (CacheFileJson.obj none) => Except.ok ([], false)
  | CacheFileState.content (CacheFileJson.obj (some (ReposValue.strList repos))) =>
      Except.ok (repos.dedup, false)
  | CacheFileState.content (CacheFileJson.obj (some ReposValue.setRejects)) =>
      Except.error PyError.typeError
  | CacheFileState.content CacheFileJson.nonObject =>
      Except.error PyError.attributeError

/-- In-memory state of the searched-repository cache:
`GitHubFetcher.searched_repos`, a Python set modelled as a duplicate-free
list. -/
structure FetcherCacheState where
  searched_repos : List String
deriving DecidableEq, Repr

/-- Model of `GitHubFetcher.is_repo_searched`
(src/github_fetcher.py lines 177-179). -/
def is_repo_searched (c : FetcherCacheState) (r : String) : Bool :=
  decide (r ∈ c.searched_repos)

/-- Model of `GitHubFetcher._save_cache`
(src/github_fetcher.py lines 155-170): the data written to the cache file,
`sorted(list(self.searched_repos))` plus the current timestamp rendered as
a string (passed in as `now`). -/
def save_cache (c : FetcherCacheState) (now : String) : CacheFileData :=
  { repositories := c.searched_repos.insertionSort (· ≤ ·)
    last_updated := now }

/-- Model of `GitHubFetcher._mark_repo_searched`
(src/github_fetcher.py lines 172-175): add to the in-memory set and
immediately rewrite the cache file.  Returns the new in-memory state and
the file contents written. -/
def mark_repo_searched (c : FetcherCacheState) (r : String) (now : String) :
    FetcherCacheState × CacheFileData :=
  let c' : FetcherCacheState := { searched_repos := setInsert c.searched_repos r }
  (c', save_cache c' now)

/-! ### src/github_fetcher.py — issue fetching -/

/-- An issue as returned by `github.search_issues`, restricted to the
attributes `fetch_issues` reads.  `repository_full_name` is
`issue.repository.full_name` when the `repository` attribute exists
(`none` models a missing attribute); `reactions_total` is the reaction
total count resolved from the dict/object shapes the code probes
(src/github_fetcher.py lines 350-356), `none` when no count is available
(resolved to 0); `body` is `none` for a null body (`issue.body or ""`);
`author` is `issue.user.login`, already defaulted to `""` for a null
user. -/
structure RawIssue where
  number : Nat
  repository_full_name : Option String
  reactions_total : Option Nat
  comments : Nat
  title : String
  body : Option String
  html_url : String
  labels : List String
  created_at : String
  updated_at : String
  state : String
  author : String
deriving DecidableEq, Repr

/-- The reaction count the code settles on (src/github_fetcher.py
lines 350-356): the resolved `total_count` when present, else 0. -/
def reactionsCount (i : RawIssue) : Nat := i.reactions_total.getD 0

/-- The de-duplication key (src/github_fetcher.py line 345):
`(issue.number, issue.repository.full_name if hasattr(issue, "repository")
else repo.full_name)`. -/
def issueDedupKey (repo_full_name : String) (i : RawIssue) : Nat × String :=
  (i.number, i.repository_full_name.getD repo_full_name)

/-- Conversion of a selected raw issue into the `GitHubIssue` model
(src/github_fetcher.py lines 366-380). -/
def toGitHubIssue (repo_name repo_full_name : String) (i : RawIssue) :
    GitHubIssue :=
  { repo := repo_name
    repo_full_name := repo_full_name
    issue_number := i.number
    title := i.title
    body := i.body.getD ""
    url := i.html_url
    labels := i.labels
    reactions := reactionsCount i
    comments := i.comments
    created_at := i.created_at
    updated_at := i.updated_at
    state := i.state
    author := i.author }

/-- Loop state of `fetch_issues`: the selected issues (in order) and the
`seen_keys` set, modelled as a list without duplicates. -/
structure FetchState where
  results : List RawIssue
  seen_keys : List (Nat × String)
deriving DecidableEq, Repr

/-- One iteration of the inner loop of `fetch_issues`
(src/github_fetcher.py lines 341-385): stop adding once the cap is
reached (the `break`; further iterations cannot change the state, so the
loop break is modelled as a no-op step), skip already-seen keys, skip
issues below the engagement thresholds, otherwise append the issue and
record its key. -/
def fetchStep (repo_full_name : String)
    (min_reactions min_comments max_issues : Nat)
    (st : FetchState) (i : RawIssue) : FetchState :=
  if max_issues ≤ st.results.length then st
  else if issueDedupKey repo_full_name i ∈ st.seen_keys then st
  else if reactionsCount i < min_reactions ∨ i.comments < min_comments then st
  else { results := st.results ++ [i]
         seen_keys := st.seen_keys ++ [issueDedupKey repo_full_name i] }

/-- Python `label_list = labels or [None]` (src/github_fetcher.py
line 308): one unlabeled pass when no labels are configured. -/
def labelList (labels : List String) : List (Option String) :=
  match labels with
  | [] => [none]
  | _ => labels.map some

/-- The selection loop of `GitHubFetcher.fetch_issues`
(src/github_fetcher.py lines 306-393) on the normal (exception-free)
path, as a function of the search results per label pass.  The outer
per-label `break` at the cap is likewise modelled by `fetchStep`
no-opping once the cap is reached. -/
def fetchSelected (repo_full_name : String) (labels : List String)
    (search : Option String → List RawIssue)
    (min_reactions min_comments max_issues : Nat) : FetchState :=
  (labelList labels).foldl
    (fun st lab =>
      (search lab).foldl
        (fetchStep repo_full_name min_reactions min_comments max_issues) st)
    { results := [], seen_keys := [] }

/-- Model of `GitHubFetcher.fetch_issues` (normal return): the selected
issues converted to `GitHubIssue` values. -/
def fetch_issues (repo_name repo_full_name : String) (labels : List String)
    (search : Option String → List RawIssue)
    (min_reactions min_comments max_issues : Nat) : List GitHubIssue :=
  (fetchSelected repo_full_name labels search
      min_reactions min_comments max_issues).results.map
    (toGitHubIssue repo_name repo_full_name)

/-! ### src/output.py — result store -/

/-- The nested `ai_analysis` object of a persisted opportunity record
(src/output.py lines 44-53). -/
structure AiAnalysisDict where
  market_potential : Int
  technical_feasibility : Int
  competition : Int
  monetization_fit : Int
  total_score : Int
  opportunity_summary : String
  product_idea : Option String
  skip_reason : Option String
deriving DecidableEq, Repr

/-- A persisted opportunity record, as built by
`OutputWriter._opportunity_to_dict` (src/output.py lines 28-55) and stored
in the JSON representation. -/
structure OppRecord where
  repo : String
  repo_full_name : String
  issue_number : Nat
  title : String
  body : String
  url : String
  labels : List String
  reactions : Nat
  comments : Nat
  created_at : String
  updated_at : String
  state : String
  author : String
  ai_analysis : AiAnalysisDict
  scraped_at : String
deriving DecidableEq, Repr

/-- Model of `OutputWriter._opportunity_to_dict`
(src/output.py lines 28-55); `datetime.now().isoformat()` is passed in as
`now`. -/
def opportunity_to_dict (issue : GitHubIssue) (analysis : OpportunityAnalysis)
    (now : String) : OppRecord :=
  { repo := issue.repo
    repo_full_name := issue.repo_full_name
    issue_number := issue.issue_number
    title := issue.title
    body := issue.body
    url := issue.url
    labels := issue.labels
    reactions := issue.reactions
    comments := issue.comments
    created_at := issue.created_at
    updated_at := issue.updated_at
    state := issue.state
    author := issue.author
    ai_analysis :=
      { market_potential := analysis.market_potential
        technical_feasibility := analysis.technical_feasibility
        competition := analysis.competition
        monetization_fit := analysis.monetization_fit
        total_score := analysis.total_score
        opportunity_summary := analysis.opportunity_summary
        product_idea := analysis.product_idea
        skip_reason := analysis.skip_reason }
    scraped_at := now }

/-- The merge key `f"{opp['repo_full_name']}#{opp['issue_number']}"`
(src/output.py lines 98, 105, 213, 220). -/
def oppKey (o : OppRecord) : String :=
  o.repo_full_name ++ "#" ++ toString o.issue_number

/-- A Python dict with string keys, modelled as an association list in
insertion order: assigning to an existing key replaces the value in place,
assigning to a fresh key appends. -/
def dictInsert {α : Type} (m : List (String × α)) (k : String) (v : α) :
    List (String × α) :=
  match m with
  | [] => [(k, v)]
  | (k', v') :: rest =>
      if k' = k then (k, v) :: rest else (k', v') :: dictInsert rest k v

/-- Python `key in map`. -/
def containsKey {α : Type} (m : List (String × α)) (k : String) : Bool :=
  m.any (fun p => p.1 == k)

/-- First value stored under `k` (the unique one once keys are distinct). -/
def dictGet {α : Type} : List (String × α) → String → Option α
  | [], _ => none
  | p :: rest, k => if p.1 = k then some p.2 else dictGet rest k

/-- The `opportunity_map` built from the existing records
(src/output.py lines 96-99 and 211-214). -/
def buildMap {α : Type} (key : α → String) (l : List α) :
    List (String × α) :=
  l.foldl (fun m o => dictInsert m (key o) o) []

/-- The overlay loop over the new records (src/output.py lines 101-110 and
216-225): per record, count it as updated when its key is already in the
map (including keys introduced by earlier new records) and as new
otherwise, then assign it into the map.  Returns the final map and the
`(new_count, updated_count)` pair. -/
def overlay {α : Type} (key : α → String) (m : List (String × α)) :
    List α → List (String × α) × Nat × Nat
  | [] => (m, 0, 0)
  | o :: rest =>
      let k := key o
      let hit := containsKey m k
      let r := overlay key (dictInsert m k o) rest
      (r.1, (if hit then r.2.1 else r.2.1 + 1), (if hit then r.2.2 + 1 else r.2.2))

/-- The final sort (src/output.py lines 116-123 and 231-238):
`list.sort(key=..., reverse=True)` for the four recognized sort fields,
no sort otherwise.  Python's sort is stable; descending order with
stability is a sort by the reflexive relation "key of the left element is
at least the key of the right element". -/
def sortMerged (sort_by : String) (l : List OppRecord) : List OppRecord :=
  if sort_by = "total_score" then
    l.insertionSort (fun a b => b.ai_analysis.total_score ≤ a.ai_analysis.total_score)
  else if sort_by = "market_potential" then
    l.insertionSort (fun a b => b.ai_analysis.market_potential ≤ a.ai_analysis.market_potential)
  else if sort_by = "reactions" then
    l.insertionSort (fun a b => b.reactions ≤ a.reactions)
  else if sort_by = "comments" then
    l.insertionSort (fun a b => b.comments ≤ a.comments)
  else l

/-- The merge-sort core shared verbatim by `OutputWriter.write_json`
(src/output.py lines 90-123) and `OutputWriter.write_csv`
(src/output.py lines 204-238), at the record level: build the map from
the existing records, overlay the new records, read the merged list back
out of the map and sort it.  Returns the merged records plus
`(new_count, updated_count)`. -/
def mergeRecords (existing news : List OppRecord) (sort_by : String) :
    List OppRecord × Nat × Nat :=
  let r := overlay oppKey (buildMap oppKey existing) news
  (sortMerged sort_by (r.1.map Prod.snd), r.2.1, r.2.2)

/-- Model of `OutputWriter.write_json` (src/output.py lines 57-142) on its
successful path, at the level of the record collection it persists:
`existing` is the opportunity list parsed from the existing file ( `[]`
when the file is absent or unparsable), `issues`/`analyses` are the
parallel input sequences.  Returns `none` when the length precondition
fails (the write is skipped entirely), otherwise the persisted records
plus the reported `(new_count, updated_count)`. -/
def write_json (existing : List OppRecord) (issues : List GitHubIssue)
    (analyses : List OpportunityAnalysis) (now : String) (sort_by : String) :
    Option (List OppRecord × Nat × Nat) :=
  if issues.length ≠ analyses.length then none
  else
    some (mergeRecords existing
      ((issues.zip analyses).map (fun p => opportunity_to_dict p.1 p.2 now))
      sort_by)

/-- A row of the CSV representation, as written by `OutputWriter.write_csv`
(src/output.py lines 240-274): the flattened record.  Note the field list —
the issue `body` is not among the CSV columns; `labels` is the `", "`-join;
the optional `product_idea`/`skip_reason` become `""` when absent. -/
structure CsvRow where
  repo : String
  repo_full_name : String
  issue_number : Nat
  title : String
  url : String
  labels : String
  reactions : Nat
  comments : Nat
  created_at : String
  updated_at : String
  state : String
  author : String
  market_potential : Int
  technical_feasibility : Int
  competition : Int
  monetization_fit : Int
  total_score : Int
  opportunity_summary : String
  product_idea : String
  skip_reason : String
  scraped_at : String
deriving DecidableEq, Repr

/-- Flattening of one merged record into a CSV row
(src/output.py lines 242-266). -/
def csvRowOf (o : OppRecord) : CsvRow :=
  { repo := o.repo
    repo_full_name := o.repo_full_name
    issue_number := o.issue_number
    title := o.title
    url := o.url
    labels := String.intercalate ", " o.labels
    reactions := o.reactions
    comments := o.comments
    created_at := o.created_at
    updated_at := o.updated_at
    state := o.state
    author := o.author
    market_potential := o.ai_analysis.market_potential
    technical_feasibility := o.ai_analysis.technical_feasibility
    competition := o.ai_analysis.competition
    monetization_fit := o.ai_analysis.monetization_fit
    total_score := o.ai_analysis.total_score
    opportunity_summary := o.ai_analysis.opportunity_summary
    product_idea := o.ai_analysis.product_idea.getD ""
    skip_reason := o.ai_analysis.skip_reason.getD ""
    scraped_at := o.scraped_at }

/-- Model of `OutputWriter.write_csv` (src/output.py lines 144-279) on its
successful path when no prior CSV file exists (or it fails to parse), so
`existing_opportunities = []`: the same merge-sort core as `write_json`
applied to the records built from the input pairs, each merged record then
flattened to a CSV row.  Returns `none` when the length precondition
fails. -/
def write_csv_fresh (issues : List GitHubIssue)
    (analyses : List OpportunityAnalysis) (now : String) (sort_by : String) :
    Option (List CsvRow × Nat × Nat) :=
  if issues.length ≠ analyses.length then none
  else
    let r := mergeRecords []
      ((issues.zip analyses).map (fun p => opportunity_to_dict p.1 p.2 now))
      sort_by
    some (r.1.map csvRowOf, r.2.1, r.2.2)

/-! ### Spec-side definitions and concrete sample values -/

/-- The rate-limit classification condition exactly as claim C5 words it:
a 429 or RESOURCE_EXHAUSTED status/code, or a rate-limit/quota/
resource-exhausted keyword in the (lowered) message. -/
def rateLimitCondition (e : GeminiError) : Prop :=
  e.code = some (Sum.inl 429) ∨
  (∃ s, e.code = some (Sum.inr s) ∧ upperStr s = "RESOURCE_EXHAUSTED".data) ∨
  pyContains (lowerStr e.message) "rate limit" = true ∨
  pyContains (lowerStr e.message) "quota" = true ∨
  pyContains (lowerStr e.message) "resource exhausted" = true

/-- Folding `dictInsert` over a list of records, starting from an existing
map: the common shape of `buildMap` and the map component of `overlay`. -/
def insertAll {α : Type} (key : α → String) (m : List (String × α))
    (l : List α) : List (String × α) :=
  l.foldl (fun m o => dictInsert m (key o) o) m

/-- A concrete scoring-backend error whose message mentions "rate limit". -/
def sampleRateLimitError : GeminiError :=
  { isRateLimitInstance := false
    isResourceExhaustedInstance := false
    code := none
    message := "429 Rate limit exceeded for model" }

/-- A concrete raw scoring response whose `total_score` field (99) does not
equal the sum of its sub-scores (30). -/
def sampleRaw : RawAnalysisResponse :=
  { market_potential := 8
    technical_feasibility := 7
    competition := 6
    monetization_fit := 9
    total_score := some 99
    opportunity_summary := "Strong recurring demand."
    product_idea := some "Standalone SaaS"
    skip_reason := none }

/-- The analysis value the pydantic model produces from `sampleRaw`. -/
def sampleParsed : OpportunityAnalysis :=
  { market_potential := 8
    technical_feasibility := 7
    competition := 6
    monetization_fit := 9
    total_score := 30
    opportunity_summary := "Strong recurring demand."
    product_idea := some "Standalone SaaS"
    skip_reason := none }

/-- A concrete issue of repository "X/Y", issue number 1. -/
def sampleIssue : GitHubIssue :=
  { repo := "Y"
    repo_full_name := "X/Y"
    issue_number := 1
    title := "Add export"
    body := "Please add an export feature."
    url := "https://github.com/X/Y/issues/1"
    labels := ["enhancement", "help wanted"]
    reactions := 12
    comments := 4
    created_at := "2024-01-01T00:00:00"
    updated_at := "2024-02-01T00:00:00"
    state := "open"
    author := "alice" }

/-- The same issue as `sampleIssue` with a different body text. -/
def sampleIssueB : GitHubIssue :=
  { sampleIssue with body := "A different body text." }

/-- A concrete analysis with total score 30. -/
def sampleAnalysis30 : OpportunityAnalysis :=
  { market_potential := 8
    technical_feasibility := 8
    competition := 7
    monetization_fit := 7
    total_score := 30
    opportunity_summary := "High potential."
    product_idea := some "A tool"
    skip_reason := none }

/-- A concrete analysis with total score 10, for the re-scoring scenario. -/
def sampleAnalysis10 : OpportunityAnalysis :=
  { market_potential := 3
    technical_feasibility := 3
    competition := 2
    monetization_fit := 2
    total_score := 10
    opportunity_summary := "Low potential on re-scoring."
    product_idea := none
    skip_reason := some "saturated" }

/-! ## Theorems -/

/-- C2 counterexample: the denylist entry "Microsoft-Activation-Scripts"
contains upper-case letters while the classifier lower-cases only the
repository text, so a repository actually named
"microsoft-activation-scripts" — on which that keyword appears
case-insensitively — is nevertheless accepted: the claimed rejection
condition holds, yet `is_tool_repository` returns true. -/
theorem C2_counterexample :
    claimedRejectCondition "microsoft-activation-scripts" none false ∧
    is_tool_repository "microsoft-activation-scripts" none false = true :=
  ⟨Or.inl ⟨"Microsoft-Activation-Scripts", by decide, by decide⟩, by decide⟩

/-- C2 (amended): `is_tool_repository` returns false exactly when some
denylist keyword, compared verbatim (hence case-insensitively for every
all-lower-case keyword, while the one mixed-case keyword
"Microsoft-Activation-Scripts" can never match), occurs as a substring of
the lower-cased "full_name description" text, or the repository is
archived; otherwise it returns true.  It is total — always a boolean. -/
theorem C2_is_tool_repository_characterization (full_name : String)
    (description : Option String) (archived : Bool) :
    is_tool_repository full_name description archived = false ↔
      ((∃ kw ∈ EXCLUDED_REPO_KEYWORDS,
          kw.data <:+: lowerStr (full_name ++ " " ++ description.getD "")) ∨
        archived = true) := by
  by_cases hk : (EXCLUDED_REPO_KEYWORDS.any
      fun kw => pyContains (lowerStr (full_name ++ " " ++ description.getD "")) kw) = true
  · have hex := List.any_eq_true.1 hk
    simp only [pyContains, decide_eq_true_eq] at hex
    simp only [is_tool_repository, hk, if_true]
    simpa using Or.inl hex
  · have hnone : ∀ kw ∈ EXCLUDED_REPO_KEYWORDS,
        ¬ kw.data <:+: lowerStr (full_name ++ " " ++ description.getD "") := by
      intro kw hmem hinf
      exact hk (List.any_eq_true.2 ⟨kw, hmem, by simpa [pyContains] using hinf⟩)
    cases archived
    · simp only [is_tool_repository, hk]
      constructor
      · intro h
        exact absurd h (by simp)
      · rintro (⟨kw, hmem, hinf⟩ | h)
        · exact absurd hinf (hnone kw hmem)
        · exact absurd h (by simp)
    · simp [is_tool_repository, hk]

/-- C2 witness: an archived repository is rejected, and a plain tool
repository is accepted. -/
theorem C2_witness :
    is_tool_repository "rust-lang/rust" (some "The Rust compiler") true = false ∧
    is_tool_repository "rust-lang/rust" (some "The Rust compiler") false = true :=
  ⟨(C2_is_tool_repository_characterization "rust-lang/rust"
      (some "The Rust compiler") true).2 (Or.inr rfl),
   by decide⟩

/-- C9 counterexample: a cache file holding well-formed JSON whose top
level is not an object (so `json.load` succeeds but
`data.get("repositories", [])` raises `AttributeError`, which the
`except (json.JSONDecodeError, IOError)` clause does not catch) makes
construction fail instead of falling back to the empty set. -/
theorem C9_counterexample :
    load_cache (CacheFileState.content CacheFileJson.nonObject) =
      Except.error PyError.attributeError := rfl

/-- C9 (amended): construction reads the persisted set when the file
parses to a JSON object whose "repositories" value is absent or a list of
strings, and on an `IOError` while reading or a `json.JSONDecodeError`
while parsing it logs a warning and starts with the empty set; but
construction can still fail on cache-file contents outside the caught
exception classes: a file that is not valid UTF-8 (`UnicodeDecodeError`),
valid JSON whose top level is not an object (`AttributeError` from
`data.get`), or an object whose "repositories" value `set` cannot consume
(`TypeError`). -/
theorem C9_load_cache_spec :
    load_cache CacheFileState.absent = Except.ok ([], false) ∧
    load_cache CacheFileState.unreadable = Except.ok ([], true) ∧
    load_cache (CacheFileState.content (CacheFileJson.obj none))
      = Except.ok ([], false) ∧
    (∀ repos : List String,
      load_cache (CacheFileState.content
          (CacheFileJson.obj (some (ReposValue.strList repos))))
        = Except.ok (repos.dedup, false)) ∧
    load_cache CacheFileState.undecodable
      = Except.error PyError.unicodeDecodeError ∧
    load_cache (CacheFileState.content
        (CacheFileJson.obj (some ReposValue.setRejects)))
      = Except.error PyError.typeError ∧
    (∀ st : CacheFileState,
      (∃ res, load_cache st = Except.ok res) ∨
      st = CacheFileState.undecodable ∨
      st = CacheFileState.content CacheFileJson.nonObject ∨
      st = CacheFileState.content
        (CacheFileJson.obj (some ReposValue.setRejects))) := by
  refine ⟨rfl, rfl, rfl, fun _ => rfl, rfl, rfl, ?_⟩
  intro st
  cases st with
  | absent => exact Or.inl ⟨_, rfl⟩
  | undecodable => exact Or.inr (Or.inl rfl)
  | unreadable => exact Or.inl ⟨_, rfl⟩
  | content j =>
      cases j with
      | obj repos =>
          cases repos with
          | none => exact Or.inl ⟨_, rfl⟩
          | some v =>
              cases v with
              | strList repos => exact Or.inl ⟨_, rfl⟩
              | setRejects => exact Or.inr (Or.inr (Or.inr rfl))
      | nonObject => exact Or.inr (Or.inr (Or.inl rfl))

/-- Mapping `_ensure_total_score` over an optional analysis changes
nothing. -/
theorem map_ensure_total_score (x : Option OpportunityAnalysis) :
    x.map ensure_total_score = x := by
  cases x <;> rfl

/-- Every analysis value the pydantic model constructs satisfies the
score invariant: the sub-scores are in [1,10] and `total_score` is their
sum, hence in [4,40]. -/
theorem mkOpportunityAnalysis_spec (mp tf comp mf : Int) (t : Option Int)
    (s : String) (product_idea skip_reason : Option String)
    (a : OpportunityAnalysis)
    (h : mkOpportunityAnalysis mp tf comp mf t s product_idea skip_reason
        = some a) :
    a.total_score = a.market_potential + a.technical_feasibility +
        a.competition + a.monetization_fit ∧
    (1 ≤ a.market_potential ∧ a.market_potential ≤ 10) ∧
    (1 ≤ a.technical_feasibility ∧ a.technical_feasibility ≤ 10) ∧
    (1 ≤ a.competition ∧ a.competition ≤ 10) ∧
    (1 ≤ a.monetization_fit ∧ a.monetization_fit ≤ 10) ∧
    (4 ≤ a.total_score ∧ a.total_score ≤ 40) := by
  unfold mkOpportunityAnalysis at h
  split at h
  · next hcond =>
      have hb : (1 ≤ mp ∧ mp ≤ 10) ∧ (1 ≤ tf ∧ tf ≤ 10) ∧
          (1 ≤ comp ∧ comp ≤ 10) ∧ (1 ≤ mf ∧ mf ≤ 10) := by
        simp only [Bool.and_eq_true, validScore, decide_eq_true_eq] at hcond
        tauto
      injection h with h'
      subst h'
      refine ⟨rfl, ?_, ?_, ?_, ?_, ?_⟩ <;>
        · dsimp only
          omega
  · exact absurd h (by simp)

/-- Whenever `analyze_issue` yields an analysis (from the primary or the
fallback attempt), that analysis came out of the pydantic model. -/
theorem analyze_issue_ok_some (model fallback_model : String)
    (primary fallback : GenerateOutcome) (a : OpportunityAnalysis)
    (h : (analyze_issue model fallback_model primary fallback).outcome
        = Except.ok (some a)) :
    ∃ r : RawAnalysisResponse, parseResponse r = some a := by
  cases primary with
  | ok p =>
      cases p with
      | none => simp [analyze_issue] at h
      | some r =>
          simp [analyze_issue, map_ensure_total_score] at h
          exact ⟨r, h⟩
  | err e =>
      by_cases hrl : is_rate_limit_error e = true
      · simp [analyze_issue, hrl] at h
      · by_cases hm : model = fallback_model
        · simp [analyze_issue, hrl, hm] at h
        · cases fallback with
          | ok p =>
              cases p with
              | none => simp [analyze_issue, hrl, hm] at h
              | some r =>
                  simp [analyze_issue, hrl, hm, map_ensure_total_score] at h
                  exact ⟨r, h⟩
          | err e2 =>
              by_cases hrl2 : is_rate_limit_error e2 = true
              · simp [analyze_issue, hrl, hrl2, hm] at h
              · simp [analyze_issue, hrl, hrl2, hm] at h

/-- C1: every `OpportunityAnalysis` produced by `analyze_issue` (primary
or fallback path) has `total_score` equal to the sum of the four
sub-scores, each sub-score in [1,10], and hence `total_score` in [4,40],
regardless of the `total_score` the backend response carried. -/
theorem C1_total_score_invariant (model fallback_model : String)
    (primary fallback : GenerateOutcome) (a : OpportunityAnalysis)
    (h : (analyze_issue model fallback_model primary fallback).outcome
        = Except.ok (some a)) :
    a.total_score = a.market_potential + a.technical_feasibility +
        a.competition + a.monetization_fit ∧
    (1 ≤ a.market_potential ∧ a.market_potential ≤ 10) ∧
    (1 ≤ a.technical_feasibility ∧ a.technical_feasibility ≤ 10) ∧
    (1 ≤ a.competition ∧ a.competition ≤ 10) ∧
    (1 ≤ a.monetization_fit ∧ a.monetization_fit ≤ 10) ∧
    (4 ≤ a.total_score ∧ a.total_score ≤ 40) := by
  obtain ⟨r, hr⟩ := analyze_issue_ok_some model fallback_model primary fallback a h
  exact mkOpportunityAnalysis_spec r.market_potential r.technical_feasibility
    r.competition r.monetization_fit r.total_score r.opportunity_summary
    r.product_idea r.skip_reason a hr

/-- C1 witness: a concrete backend response carrying `total_score = 99`
yields the analysis `sampleParsed` with the recomputed total 30, and the
invariant holds of it. -/
theorem C1_witness :
    (analyze_issue "gemini-2.5-flash" "gemini-2.0-flash-001"
        (GenerateOutcome.ok (some sampleRaw)) (GenerateOutcome.ok none)).outcome
      = Except.ok (some sampleParsed) ∧
    (sampleParsed.total_score = sampleParsed.market_potential +
        sampleParsed.technical_feasibility + sampleParsed.competition +
        sampleParsed.monetization_fit ∧
      (1 ≤ sampleParsed.market_potential ∧ sampleParsed.market_potential ≤ 10) ∧
      (1 ≤ sampleParsed.technical_feasibility ∧ sampleParsed.technical_feasibility ≤ 10) ∧
      (1 ≤ sampleParsed.competition ∧ sampleParsed.competition ≤ 10) ∧
      (1 ≤ sampleParsed.monetization_fit ∧ sampleParsed.monetization_fit ≤ 10) ∧
      (4 ≤ sampleParsed.total_score ∧ sampleParsed.total_score ≤ 40)) :=
  ⟨rfl, C1_total_score_invariant "gemini-2.5-flash" "gemini-2.0-flash-001"
    (GenerateOutcome.ok (some sampleRaw)) (GenerateOutcome.ok none)
    sampleParsed rfl⟩

/-- Any error meeting the claimed rate-limit condition is classified as a
rate-limit error by `_is_rate_limit_error`. -/
theorem rateLimitCondition_classified (e : GeminiError)
    (h : rateLimitCondition e) : is_rate_limit_error e = true := by
  unfold is_rate_limit_error
  rcases h with h | ⟨s, hs, hup⟩ | h | h | h
  · simp [h]
  · simp [hs, hup]
  · simp [h]
  · simp [h]
  · simp [h]

/-- C5: a backend error meeting the rate-limit condition (429 or
RESOURCE_EXHAUSTED status/code, or a rate-limit/quota/resource-exhausted
keyword in the message) during the primary attempt makes `analyze_issue`
raise `GeminiRateLimitExceeded` with no fallback attempt; the same
classification during the fallback attempt also raises it. -/
theorem C5_rate_limit_aborts (model fallback_model : String)
    (e e2 : GeminiError) (fallback : GenerateOutcome) :
    (rateLimitCondition e →
      (analyze_issue model fallback_model (GenerateOutcome.err e)
          fallback).outcome
        = Except.error AnalyzeError.geminiRateLimitExceeded ∧
      (analyze_issue model fallback_model (GenerateOutcome.err e)
          fallback).fallbackAttempted = false) ∧
    (is_rate_limit_error e = false → model ≠ fallback_model →
      rateLimitCondition e2 →
      (analyze_issue model fallback_model (GenerateOutcome.err e)
          (GenerateOutcome.err e2)).outcome
        = Except.error AnalyzeError.geminiRateLimitExceeded) := by
  constructor
  · intro hc
    have hrl := rateLimitCondition_classified e hc
    simp [analyze_issue, hrl]
  · intro h1 h2 hc
    have hrl := rateLimitCondition_classified e2 hc
    simp [analyze_issue, h1, h2, hrl]

/-- C5 witness: a concrete error with "rate limit" in its message makes
`analyze_issue` raise the rate-limit signal without a fallback attempt. -/
theorem C5_witness :
    rateLimitCondition sampleRateLimitError ∧
    ((analyze_issue "gemini-2.5-flash" "gemini-2.0-flash-001"
        (GenerateOutcome.err sampleRateLimitError)
        (GenerateOutcome.ok none)).outcome
      = Except.error AnalyzeError.geminiRateLimitExceeded ∧
    (analyze_issue "gemini-2.5-flash" "gemini-2.0-flash-001"
        (GenerateOutcome.err sampleRateLimitError)
        (GenerateOutcome.ok none)).fallbackAttempted = false) :=
  have hc : rateLimitCondition sampleRateLimitError :=
    Or.inr (Or.inr (Or.inl (by decide)))
  ⟨hc, (C5_rate_limit_aborts "gemini-2.5-flash" "gemini-2.0-flash-001"
    sampleRateLimitError sampleRateLimitError (GenerateOutcome.ok none)).1 hc⟩

/-- Inserting into the modelled Python set makes the element a member. -/
theorem mem_setInsert_self (l : List String) (x : String) :
    x ∈ setInsert l x := by
  unfold setInsert
  split
  · assumption
  · simp

/-- C6: after `_mark_repo_searched`, `is_repo_searched` is true in the
same process; the cache file is immediately rewritten with the full
repository set in sorted order plus the timestamp; and a new cache
instance loading that persisted file also reports the repository as
searched. -/
theorem C6_cache_monotone (c : FetcherCacheState) (r now : String) :
    is_repo_searched (mark_repo_searched c r now).1 r = true ∧
    ((mark_repo_searched c r now).2.repositories).Sorted (· ≤ ·) ∧
    (mark_repo_searched c r now).2.repositories.Perm
      (setInsert c.searched_repos r) ∧
    (mark_repo_searched c r now).2.last_updated = now ∧
    load_cache (CacheFileState.content (CacheFileJson.obj
        (some (ReposValue.strList (mark_repo_searched c r now).2.repositories))))
      = Except.ok
          (((mark_repo_searched c r now).2.repositories).dedup, false) ∧
    is_repo_searched
      { searched_repos := ((mark_repo_searched c r now).2.repositories).dedup }
      r = true := by
  refine ⟨?_, ?_, ?_, rfl, rfl, ?_⟩
  · simp only [mark_repo_searched, is_repo_searched, decide_eq_true_eq]
    exact mem_setInsert_self c.searched_repos r
  · exact List.sorted_insertionSort (· ≤ ·) _
  · exact List.perm_insertionSort (· ≤ ·) _
  · simp only [mark_repo_searched, save_cache, is_repo_searched,
      decide_eq_true_eq, List.mem_dedup]
    exact ((List.perm_insertionSort (· ≤ ·) _).mem_iff).2
      (mem_setInsert_self c.searched_repos r)

/-- One valid `_rate_limit` call starts its request at least `d` after
the previous request's start. -/
theorem validStep_spacing (d last : ℚ) (s : RateLimitStep)
    (h : ValidStep d last s) : last + d ≤ s.after := by
  unfold ValidStep sleepNeeded at h
  split at h <;> linarith [h]

/-- Along a valid run, consecutive request starts are at least `d`
apart. -/
theorem validRun_chain (d : ℚ) :
    ∀ (steps : List RateLimitStep) (last : ℚ), ValidRun d last steps →
      List.Chain' (fun a b : ℚ => a + d ≤ b) (requestStarts steps) := by
  intro steps
  induction steps with
  | nil => intro _ _; simp [requestStarts]
  | cons s rest ih =>
      intro last h
      obtain ⟨h1, h2⟩ := h
      cases rest with
      | nil => simp [requestStarts]
      | cons s2 rest2 =>
          obtain ⟨h21, h22⟩ := h2
          simp only [requestStarts, List.map_cons, List.chain'_cons] at *
          exact ⟨validStep_spacing d s.after s2 h21,
            ih s.after ⟨h21, h22⟩⟩

/-- A chain of `d`-spaced values spans at least `(length - 1) * d` from
its first to its last element. -/
theorem chain_spacing_total (d : ℚ) :
    ∀ l : List ℚ, List.Chain' (fun a b : ℚ => a + d ≤ b) l →
      ∀ a ∈ l.head?, ∀ b ∈ l.getLast?,
        a + ((l.length - 1 : ℕ) : ℚ) * d ≤ b := by
  intro l
  induction l with
  | nil => intro _ a ha; simp at ha
  | cons x t ih =>
      intro hchain a ha b hb
      simp only [List.head?_cons, Option.mem_def, Option.some.injEq] at ha
      subst ha
      cases t with
      | nil =>
          simp only [List.getLast?_singleton, Option.mem_def,
            Option.some.injEq] at hb
          subst hb
          simp
      | cons y t2 =>
          rw [List.chain'_cons] at hchain
          obtain ⟨hxy, hrest⟩ := hchain
          have hb' : b ∈ (y :: t2).getLast? := by
            simpa [List.getLast?_cons_cons] using hb
          have := ih hrest y (by simp) b hb'
          have hlen : ((x :: y :: t2).length - 1 : ℕ)
              = ((y :: t2).length - 1 : ℕ) + 1 := by
            simp
          rw [hlen]
          push_cast
          linarith

/-- C10: across any valid sequence of `_rate_limit` calls, successive
request starts are at least `60 / requests_per_minute` seconds apart, so
N calls span at least `(N-1) * (60 / requests_per_minute)` seconds from
first request start to last; and `analyze_issue` re-applies the rate
limiter before any fallback attempt (two `_rate_limit` calls whenever the
fallback is attempted). -/
theorem C10_rate_limit_spacing (requests_per_minute : ℕ) (last0 : ℚ)
    (steps : List RateLimitStep)
    (h : ValidRun (min_delay requests_per_minute) last0 steps) :
    List.Chain' (fun a b : ℚ => a + min_delay requests_per_minute ≤ b)
      (requestStarts steps) ∧
    (∀ a ∈ (requestStarts steps).head?,
      ∀ b ∈ (requestStarts steps).getLast?,
        a + ((steps.length - 1 : ℕ) : ℚ) * min_delay requests_per_minute ≤ b) ∧
    (∀ (model fallback_model : String) (primary fallback : GenerateOutcome),
      (analyze_issue model fallback_model primary fallback).fallbackAttempted
          = true →
      (analyze_issue model fallback_model primary fallback).rateLimitCalls
          = 2) := by
  have hchain := validRun_chain (min_delay requests_per_minute) steps last0 h
  refine ⟨hchain, ?_, ?_⟩
  · intro a ha b hb
    have := chain_spacing_total (min_delay requests_per_minute)
      (requestStarts steps) hchain a ha b hb
    simpa [requestStarts] using this
  · intro model fallback_model primary fallback hfb
    cases primary with
    | ok p => simp [analyze_issue] at hfb
    | err e =>
        by_cases hrl : is_rate_limit_error e = true
        · simp [analyze_issue, hrl] at hfb
        · by_cases hm : model = fallback_model
          · simp [analyze_issue, hrl, hm] at hfb
          · cases fallback with
            | ok p => simp [analyze_issue, hrl, hm]
            | err e2 =>
                by_cases hrl2 : is_rate_limit_error e2 = true
                · simp [analyze_issue, hrl, hrl2, hm]
                · simp [analyze_issue, hrl, hrl2, hm]

/-- C10 witness: with 12 requests per minute (minimum interval 5s) a
concrete two-call run satisfying the clock assumptions has its two
request starts 5 seconds apart. -/
theorem C10_witness :
    ValidRun (min_delay 12) 0
      [⟨(0 : ℚ), (5 : ℚ)⟩, ⟨(6 : ℚ), (10 : ℚ)⟩] ∧
    (List.Chain' (fun a b : ℚ => a + min_delay 12 ≤ b)
      (requestStarts [⟨(0 : ℚ), (5 : ℚ)⟩, ⟨(6 : ℚ), (10 : ℚ)⟩]) ∧
    (∀ a ∈ (requestStarts
        [(⟨(0 : ℚ), (5 : ℚ)⟩ : RateLimitStep), ⟨(6 : ℚ), (10 : ℚ)⟩]).head?,
      ∀ b ∈ (requestStarts
        [(⟨(0 : ℚ), (5 : ℚ)⟩ : RateLimitStep), ⟨(6 : ℚ), (10 : ℚ)⟩]).getLast?,
        a + ((([(⟨(0 : ℚ), (5 : ℚ)⟩ : RateLimitStep),
            ⟨(6 : ℚ), (10 : ℚ)⟩]).length - 1 : ℕ) : ℚ) * min_delay 12 ≤ b) ∧
    (∀ (model fallback_model : String) (primary fallback : GenerateOutcome),
      (analyze_issue model fallback_model primary fallback).fallbackAttempted
          = true →
      (analyze_issue model fallback_model primary fallback).rateLimitCalls
          = 2)) :=
  have hv : ValidRun (min_delay 12) 0
      [⟨(0 : ℚ), (5 : ℚ)⟩, ⟨(6 : ℚ), (10 : ℚ)⟩] := by
    refine ⟨?_, ?_, trivial⟩ <;>
      norm_num [ValidStep, sleepNeeded, min_delay]
  ⟨hv, C10_rate_limit_spacing 12 0 _ hv⟩

/-- A property preserved by each step of a fold holds of the fold. -/
theorem foldl_preserves {α β : Type} (f : β → α → β) (P : β → Prop)
    (hstep : ∀ b a, P b → P (f b a)) :
    ∀ (l : List α) (b : β), P b → P (l.foldl f b) := by
  intro l
  induction l with
  | nil => intro b hb; exact hb
  | cons a rest ih => intro b hb; exact ih (f b a) (hstep b a hb)

/-- The loop invariant of `fetch_issues`: every selected issue meets both
engagement thresholds, the cap is respected, and `seen_keys` is exactly
the duplicate-free list of the selected issues' de-duplication keys. -/
theorem fetchStep_invariant (repo_full_name : String)
    (min_reactions min_comments max_issues : Nat)
    (st : FetchState) (i : RawIssue)
    (h : (∀ j ∈ st.results,
          min_reactions ≤ reactionsCount j ∧ min_comments ≤ j.comments) ∧
        st.results.length ≤ max_issues ∧
        st.seen_keys = st.results.map (issueDedupKey repo_full_name) ∧
        st.seen_keys.Nodup) :
    (∀ j ∈ (fetchStep repo_full_name min_reactions min_comments max_issues
          st i).results,
        min_reactions ≤ reactionsCount j ∧ min_comments ≤ j.comments) ∧
    (fetchStep repo_full_name min_reactions min_comments max_issues
        st i).results.length ≤ max_issues ∧
    (fetchStep repo_full_name min_reactions min_comments max_issues
        st i).seen_keys
      = (fetchStep repo_full_name min_reactions min_comments max_issues
          st i).results.map (issueDedupKey repo_full_name) ∧
    (fetchStep repo_full_name min_reactions min_comments max_issues
        st i).seen_keys.Nodup := by
  obtain ⟨hall, hlen, hkeys, hnd⟩ := h
  by_cases hcap : max_issues ≤ st.results.length
  · simp only [fetchStep, if_pos hcap]
    exact ⟨hall, hlen, hkeys, hnd⟩
  · by_cases hseen : issueDedupKey repo_full_name i ∈ st.seen_keys
    · simp only [fetchStep, if_neg hcap, if_pos hseen]
      exact ⟨hall, hlen, hkeys, hnd⟩
    · by_cases hthr : reactionsCount i < min_reactions ∨ i.comments < min_comments
      · simp only [fetchStep, if_neg hcap, if_neg hseen, if_pos hthr]
        exact ⟨hall, hlen, hkeys, hnd⟩
      · simp only [fetchStep, if_neg hcap, if_neg hseen, if_neg hthr]
        push_neg at hthr
        refine ⟨?_, ?_, ?_, ?_⟩
        · intro j hj
          rcases List.mem_append.1 hj with hj | hj
          · exact hall j hj
          · rcases List.mem_singleton.1 hj with rfl
            exact ⟨hthr.1, hthr.2⟩
        · simp only [List.length_append, List.length_singleton]
          omega
        · simp [hkeys]
        · refine List.nodup_append.2 ⟨hnd, List.nodup_singleton _, ?_⟩
          intro x hx hxk
          rcases List.mem_singleton.1 hxk with rfl
          exact hseen hx

/-- C8: every issue returned by `fetch_issues` meets the configured
minimum reaction and comment thresholds (an issue below either threshold
is excluded before any scoring), the selected issues carry pairwise
distinct (issue number, repository) de-duplication keys across label
passes, and at most `max_issues` issues are returned. -/
theorem C8_fetch_issues_filtered (repo_name repo_full_name : String)
    (labels : List String) (search : Option String → List RawIssue)
    (min_reactions min_comments max_issues : Nat) :
    (∀ g ∈ fetch_issues repo_name repo_full_name labels search
        min_reactions min_comments max_issues,
      min_reactions ≤ g.reactions ∧ min_comments ≤ g.comments) ∧
    (fetch_issues repo_name repo_full_name labels search
        min_reactions min_comments max_issues).length ≤ max_issues ∧
    ((fetchSelected repo_full_name labels search
        min_reactions min_comments max_issues).results.map
      (issueDedupKey repo_full_name)).Nodup := by
  have hinv : (∀ j ∈ (fetchSelected repo_full_name labels search
          min_reactions min_comments max_issues).results,
        min_reactions ≤ reactionsCount j ∧ min_comments ≤ j.comments) ∧
      (fetchSelected repo_full_name labels search
          min_reactions min_comments max_issues).results.length ≤ max_issues ∧
      (fetchSelected repo_full_name labels search
          min_reactions min_comments max_issues).seen_keys
        = (fetchSelected repo_full_name labels search
            min_reactions min_comments max_issues).results.map
          (issueDedupKey repo_full_name) ∧
      (fetchSelected repo_full_name labels search
          min_reactions min_comments max_issues).seen_keys.Nodup := by
    unfold fetchSelected
    exact foldl_preserves
      (fun st lab => (search lab).foldl
        (fetchStep repo_full_name min_reactions min_comments max_issues) st)
      (fun st =>
        (∀ j ∈ st.results,
          min_reactions ≤ reactionsCount j ∧ min_comments ≤ j.comments) ∧
        st.results.length ≤ max_issues ∧
        st.seen_keys = st.results.map (issueDedupKey repo_full_name) ∧
        st.seen_keys.Nodup)
      (fun st lab hst =>
        foldl_preserves
          (fetchStep repo_full_name min_reactions min_comments max_issues)
          (fun st =>
            (∀ j ∈ st.results,
              min_reactions ≤ reactionsCount j ∧ min_comments ≤ j.comments) ∧
            st.results.length ≤ max_issues ∧
            st.seen_keys = st.results.map (issueDedupKey repo_full_name) ∧
            st.seen_keys.Nodup)
          (fun st' i hst' => fetchStep_invariant repo_full_name
            min_reactions min_comments max_issues st' i hst')
          (search lab) st hst)
      (labelList labels) { results := [], seen_keys := [] }
      ⟨by simp, by simp, rfl, List.nodup_nil⟩
  obtain ⟨hall, hlen, hkeys, hnd⟩ := hinv
  refine ⟨?_, ?_, ?_⟩
  · intro g hg
    unfold fetch_issues at hg
    obtain ⟨j, hj, rfl⟩ := List.mem_map.1 hg
    exact hall j hj
  · unfold fetch_issues
    simpa using hlen
  · rw [← hkeys]
    exact hnd

/-- Prepending to a list moves its last element only when it was empty. -/
theorem getLast?_cons_or {α : Type} (a : α) :
    ∀ l : List α, (a :: l).getLast? = l.getLast?.or (some a)
  | [] => rfl
  | b :: t => by
      rw [List.getLast?_cons_cons, getLast?_cons_or b t]
      cases t.getLast? <;> simp

/-- Keys after a Python-dict assignment. -/
theorem mem_keys_dictInsert {α : Type} (m : List (String × α)) (k : String)
    (v : α) (k' : String) :
    k' ∈ (dictInsert m k v).map Prod.fst ↔
      k' = k ∨ k' ∈ m.map Prod.fst := by
  induction m with
  | nil => simp [dictInsert]
  | cons p rest ih =>
      obtain ⟨pk, pv⟩ := p
      by_cases hpk : pk = k
      · subst hpk
        have hins : dictInsert ((pk, pv) :: rest) pk v = (pk, v) :: rest := by
          simp [dictInsert]
        rw [hins]
        simp only [List.map_cons, List.mem_cons]
        tauto
      · simp only [dictInsert, if_neg hpk, List.map_cons, List.mem_cons, ih]
        tauto

/-- A Python-dict assignment keeps the keys duplicate-free. -/
theorem nodup_keys_dictInsert {α : Type} (m : List (String × α)) (k : String)
    (v : α) (h : (m.map Prod.fst).Nodup) :
    ((dictInsert m k v).map Prod.fst).Nodup := by
  induction m with
  | nil => simp [dictInsert]
  | cons p rest ih =>
      obtain ⟨pk, pv⟩ := p
      simp only [List.map_cons, List.nodup_cons] at h
      by_cases hpk : pk = k
      · subst hpk
        have hins : dictInsert ((pk, pv) :: rest) pk v = (pk, v) :: rest := by
          simp [dictInsert]
        rw [hins]
        simp only [List.map_cons, List.nodup_cons]
        exact h
      · simp only [dictInsert, if_neg hpk, List.map_cons, List.nodup_cons]
        refine ⟨?_, ih h.2⟩
        intro hmem
        rcases (mem_keys_dictInsert rest k v pk).1 hmem with h1 | h1
        · exact hpk h1
        · exact h.1 h1

/-- Lookup after a Python-dict assignment. -/
theorem dictGet_dictInsert {α : Type} (m : List (String × α)) (k : String)
    (v : α) (k' : String) :
    dictGet (dictInsert m k v) k' = if k' = k then some v else dictGet m k' := by
  induction m with
  | nil =>
      by_cases h : k' = k
      · subst h
        simp [dictInsert, dictGet]
      · have hne : ¬k = k' := fun hkk => h hkk.symm
        simp [dictInsert, dictGet, h, hne]
  | cons p rest ih =>
      obtain ⟨pk, pv⟩ := p
      by_cases hpk : pk = k
      · subst hpk
        have hins : dictInsert ((pk, pv) :: rest) pk v = (pk, v) :: rest := by
          simp [dictInsert]
        rw [hins]
        by_cases h : k' = pk
        · subst h
          simp [dictGet]
        · have hne : ¬pk = k' := fun hkk => h hkk.symm
          simp [dictGet, h, hne]
      · have hins : dictInsert ((pk, pv) :: rest) k v
            = (pk, pv) :: dictInsert rest k v := by
          simp [dictInsert, hpk]
        rw [hins]
        by_cases h : k' = pk
        · subst h
          simp [dictGet, hpk]
        · have hne : ¬pk = k' := fun hkk => h hkk.symm
          simp [dictGet, h, hne, ih]

/-- Python `key in map` agrees with key-list membership. -/
theorem containsKey_eq_true_iff {α : Type} (m : List (String × α))
    (k : String) :
    containsKey m k = true ↔ k ∈ m.map Prod.fst := by
  simp only [containsKey, List.any_eq_true, beq_iff_eq, List.mem_map]

/-- Size after a Python-dict assignment: unchanged on a key hit, one more
on a fresh key. -/
theorem length_dictInsert {α : Type} (m : List (String × α)) (k : String)
    (v : α) :
    (dictInsert m k v).length =
      if k ∈ m.map Prod.fst then m.length else m.length + 1 := by
  induction m with
  | nil => simp [dictInsert]
  | cons p rest ih =>
      obtain ⟨pk, pv⟩ := p
      by_cases hpk : pk = k
      · subst hpk
        simp [dictInsert]
      · simp only [dictInsert, if_neg hpk, List.length_cons, ih,
          List.map_cons, List.mem_cons]
        have hne : ¬k = pk := fun hkk => hpk hkk.symm
        by_cases hk : k ∈ rest.map Prod.fst
        · simp [hk, hne]
        · simp [hk, hne]

/-- Lists that are permutations are equal when one has at most one
element. -/
theorem perm_eq_of_length_le_one {α : Type} {l l' : List α}
    (h : l.Perm l') (hl : l'.length ≤ 1) : l = l' := by
  cases l' with
  | nil => exact List.perm_nil.1 h
  | cons a t =>
      cases t with
      | nil => exact List.perm_singleton.1 h
      | cons b t2 => simp at hl

/-- Keys after overlaying a record list onto a map. -/
theorem mem_keys_insertAll {α : Type} (key : α → String) :
    ∀ (l : List α) (m : List (String × α)) (k : String),
      k ∈ (insertAll key m l).map Prod.fst ↔
        k ∈ m.map Prod.fst ∨ k ∈ l.map key := by
  intro l
  induction l with
  | nil => intro m k; simp [insertAll]
  | cons o rest ih =>
      intro m k
      have hstep : insertAll key m (o :: rest)
          = insertAll key (dictInsert m (key o) o) rest := rfl
      rw [hstep, ih]
      rw [mem_keys_dictInsert]
      simp only [List.map_cons, List.mem_cons]
      tauto

/-- Overlaying keeps the map's keys duplicate-free. -/
theorem nodup_keys_insertAll {α : Type} (key : α → String) :
    ∀ (l : List α) (m : List (String × α)),
      (m.map Prod.fst).Nodup → ((insertAll key m l).map Prod.fst).Nodup := by
  intro l
  induction l with
  | nil => intro m h; exact h
  | cons o rest ih =>
      intro m h
      exact ih (dictInsert m (key o) o) (nodup_keys_dictInsert m (key o) o h)

/-- Every pair of an overlaid map stores a value under that value's own
key, provided the starting map does. -/
theorem consistent_insertAll {α : Type} (key : α → String) :
    ∀ (l : List α) (m : List (String × α)),
      (∀ p ∈ m, p.1 = key p.2) →
      ∀ p ∈ insertAll key m l, p.1 = key p.2 := by
  intro l
  induction l with
  | nil => intro m h; exact h
  | cons o rest ih =>
      intro m h
      refine ih (dictInsert m (key o) o) ?_
      intro p hp
      clear ih
      induction m with
      | nil =>
          rcases List.mem_singleton.1 hp with rfl
          rfl
      | cons q mrest ihm =>
          obtain ⟨qk, qv⟩ := q
          by_cases hq : qk = key o
          · have hins : dictInsert ((qk, qv) :: mrest) (key o) o
                = (key o, o) :: mrest := by
              simp [dictInsert, hq]
            rw [hins] at hp
            rcases List.mem_cons.1 hp with rfl | hp
            · rfl
            · exact h p (List.mem_cons_of_mem _ hp)
          · have hins : dictInsert ((qk, qv) :: mrest) (key o) o
                = (qk, qv) :: dictInsert mrest (key o) o := by
              simp [dictInsert, hq]
            rw [hins] at hp
            rcases List.mem_cons.1 hp with rfl | hp
            · exact h (qk, qv) (List.mem_cons_self _ _)
            · exact ihm (fun q hq => h q (List.mem_cons_of_mem _ hq)) hp

/-- Lookup in an overlaid map: the last new record with the key wins,
else the map's prior binding. -/
theorem dictGet_insertAll {α : Type} (key : α → String) :
    ∀ (l : List α) (m : List (String × α)) (k : String),
      dictGet (insertAll key m l) k
        = ((l.filter (fun o => key o == k)).getLast?).or (dictGet m k) := by
  intro l
  induction l with
  | nil => intro m k; simp [insertAll]
  | cons o rest ih =>
      intro m k
      have hstep : insertAll key m (o :: rest)
          = insertAll key (dictInsert m (key o) o) rest := rfl
      rw [hstep, ih]
      by_cases h : key o = k
      · rw [List.filter_cons_of_pos (by simpa using h), getLast?_cons_or]
        rw [dictGet_dictInsert, if_pos h.symm]
        cases (rest.filter (fun o => key o == k)).getLast? <;> simp
      · rw [List.filter_cons_of_neg (by simpa using h)]
        rw [dictGet_dictInsert, if_neg (fun hk => h hk.symm)]

/-- A key occurs among a record list's keys exactly when filtering the
list by that key leaves something, i.e. the filter has a last element. -/
theorem mem_map_key_iff_filter {α : Type} (key : α → String)
    (l : List α) (k : String) :
    k ∈ l.map key ↔ (l.filter (fun o => key o == k)) ≠ [] := by
  rw [Ne, List.filter_eq_nil_iff]
  simp only [List.mem_map, beq_iff_eq, not_forall]
  constructor
  · rintro ⟨o, ho, rfl⟩
    exact ⟨o, ho, by simp⟩
  · rintro ⟨o, ho, hk⟩
    exact ⟨o, ho, by simpa using hk⟩

/-- The map component of `overlay` is the fold of dict assignments. -/
theorem overlay_fst {α : Type} (key : α → String) :
    ∀ (l : List α) (m : List (String × α)),
      (overlay key m l).1 = insertAll key m l := by
  intro l
  induction l with
  | nil => intro m; rfl
  | cons o rest ih => intro m; exact ih (dictInsert m (key o) o)

/-- Counts reported by `overlay` for a single new record. -/
theorem overlay_single {α : Type} (key : α → String)
    (m : List (String × α)) (o : α) :
    overlay key m [o]
      = (dictInsert m (key o) o,
          (if containsKey m (key o) then 0 else 1),
          (if containsKey m (key o) then 1 else 0)) := by
  simp [overlay]

/-- In a key-consistent map, the stored keys are the values' keys. -/
theorem map_fst_eq_map_key {α : Type} (key : α → String)
    (m : List (String × α)) (h : ∀ p ∈ m, p.1 = key p.2) :
    m.map Prod.fst = (m.map Prod.snd).map key := by
  induction m with
  | nil => rfl
  | cons p rest ih =>
      simp only [List.map_cons]
      rw [h p (List.mem_cons_self _ _),
        ih (fun q hq => h q (List.mem_cons_of_mem _ hq))]

/-- Filtering the values of a key-consistent map by key is filtering the
pairs by stored key. -/
theorem filter_map_snd {α : Type} (key : α → String) (k : String) :
    ∀ m : List (String × α), (∀ p ∈ m, p.1 = key p.2) →
      (m.map Prod.snd).filter (fun v => key v == k)
        = (m.filter (fun p => p.1 == k)).map Prod.snd := by
  intro m
  induction m with
  | nil => intro _; rfl
  | cons p rest ih =>
      intro h
      have hp := h p (List.mem_cons_self _ _)
      have hr := ih (fun q hq => h q (List.mem_cons_of_mem _ hq))
      simp only [List.map_cons, List.filter_cons]
      rw [← hp]
      by_cases hk : p.1 = k
      · simp [hk, hr]
      · simp [hk, hr]

/-- With duplicate-free keys, filtering a map by a key yields exactly the
looked-up binding. -/
theorem filter_eq_dictGet_toList {α : Type} :
    ∀ (m : List (String × α)) (k : String), (m.map Prod.fst).Nodup →
      (m.filter (fun p => p.1 == k)).map Prod.snd = (dictGet m k).toList := by
  intro m
  induction m with
  | nil => intro k _; rfl
  | cons p rest ih =>
      intro k hnd
      simp only [List.map_cons, List.nodup_cons] at hnd
      by_cases hk : p.1 = k
      · have hrest : rest.filter (fun q => q.1 == k) = [] := by
          refine List.filter_eq_nil_iff.2 ?_
          intro q hq
          simp only [beq_iff_eq]
          intro hqk
          exact hnd.1 (by
            rw [hk, ← hqk]
            exact List.mem_map_of_mem Prod.fst hq)
        simp [List.filter_cons, hk, hrest, dictGet]
      · simp [List.filter_cons, hk, dictGet, ih k hnd.2]

/-- A nonempty list has a last element. -/
theorem exists_getLast?_of_ne_nil {α : Type} :
    ∀ l : List α, l ≠ [] → ∃ x, l.getLast? = some x := by
  intro l h
  cases l with
  | nil => exact absurd rfl h
  | cons a t =>
      rw [getLast?_cons_or]
      cases t.getLast? <;> simp

/-- An optional value yields at most one list element. -/
theorem option_toList_length_le_one {α : Type} (o : Option α) :
    o.toList.length ≤ 1 := by
  cases o <;> simp

/-- The final sort of the result store only reorders the merged
records. -/
theorem sortMerged_perm (sb : String) (l : List OppRecord) :
    (sortMerged sb l).Perm l := by
  unfold sortMerged
  split
  · exact List.perm_insertionSort _ _
  · split
    · exact List.perm_insertionSort _ _
    · split
      · exact List.perm_insertionSort _ _
      · split
        · exact List.perm_insertionSort _ _
        · exact List.Perm.refl _

/-- The records of `mergeRecords`, before sorting, read back from the
merged map. -/
theorem mergeRecords_fst (existing news : List OppRecord) (sb : String) :
    (mergeRecords existing news sb).1
      = sortMerged sb
          ((insertAll oppKey (buildMap oppKey existing) news).map Prod.snd) := by
  show sortMerged sb
      ((overlay oppKey (buildMap oppKey existing) news).1.map Prod.snd) = _
  rw [overlay_fst]

/-- The merged map stores every record under its own key. -/
theorem mergeMap_consistent (existing news : List OppRecord) :
    ∀ p ∈ insertAll oppKey (buildMap oppKey existing) news,
      p.1 = oppKey p.2 :=
  consistent_insertAll oppKey news _
    (consistent_insertAll oppKey existing []
      (fun p hp => absurd hp (List.not_mem_nil p)))

/-- The merged map has duplicate-free keys. -/
theorem mergeMap_keys_nodup (existing news : List OppRecord) :
    ((insertAll oppKey (buildMap oppKey existing) news).map Prod.fst).Nodup :=
  nodup_keys_insertAll oppKey news _
    (nodup_keys_insertAll oppKey existing [] (by simp))

/-- The records written by `mergeRecords` are a permutation of the merged
map's values. -/
theorem mergeRecords_perm (existing news : List OppRecord) (sb : String) :
    (mergeRecords existing news sb).1.Perm
      ((insertAll oppKey (buildMap oppKey existing) news).map Prod.snd) := by
  rw [mergeRecords_fst]
  exact sortMerged_perm sb _

/-- Lookup in the merged map: a key present among the new records resolves
to the last new record with that key, any other key to the last existing
record with it. -/
theorem dictGet_mergeMap (existing news : List OppRecord) (k : String) :
    dictGet (insertAll oppKey (buildMap oppKey existing) news) k
      = if k ∈ news.map oppKey
          then (news.filter (fun o => oppKey o == k)).getLast?
          else (existing.filter (fun o => oppKey o == k)).getLast? := by
  rw [dictGet_insertAll]
  rw [show buildMap oppKey existing = insertAll oppKey [] existing from rfl,
    dictGet_insertAll]
  by_cases hnews : k ∈ news.map oppKey
  · obtain ⟨x, hx⟩ := exists_getLast?_of_ne_nil _
      ((mem_map_key_iff_filter oppKey news k).1 hnews)
    rw [hx, if_pos hnews]
    rfl
  · have hF : news.filter (fun o => oppKey o == k) = [] := by
      by_contra hne
      exact hnews ((mem_map_key_iff_filter oppKey news k).2 hne)
    rw [hF, if_neg hnews]
    show (existing.filter (fun o => oppKey o == k)).getLast?.or none = _
    cases (existing.filter (fun o => oppKey o == k)).getLast? <;> rfl

/-- The keys of the map built from the existing records are exactly the
existing records' keys. -/
theorem mem_keys_buildMap {α : Type} (key : α → String) (l : List α)
    (k : String) :
    k ∈ (buildMap key l).map Prod.fst ↔ k ∈ l.map key := by
  rw [show buildMap key l = insertAll key [] l from rfl, mem_keys_insertAll]
  simp

/-- Python `key in opportunity_map` for the map built from the existing
records. -/
theorem containsKey_buildMap {α : Type} (key : α → String) (l : List α)
    (k : String) :
    containsKey (buildMap key l) k = true ↔ k ∈ l.map key := by
  rw [containsKey_eq_true_iff]
  exact mem_keys_buildMap key l k

/-- Overlaying records whose keys are fresh and pairwise distinct grows
the map by exactly their number. -/
theorem length_insertAll_fresh {α : Type} (key : α → String) :
    ∀ (l : List α) (m : List (String × α)),
      (l.map key).Nodup → (∀ k ∈ l.map key, k ∉ m.map Prod.fst) →
      (insertAll key m l).length = m.length + l.length := by
  intro l
  induction l with
  | nil => intro m _ _; simp [insertAll]
  | cons o rest ih =>
      intro m hnd hfresh
      simp only [List.map_cons, List.nodup_cons] at hnd
      have hstep : insertAll key m (o :: rest)
          = insertAll key (dictInsert m (key o) o) rest := rfl
      rw [hstep]
      have hfr : ∀ k ∈ rest.map key,
          k ∉ (dictInsert m (key o) o).map Prod.fst := by
        intro k hk hmem
        rcases (mem_keys_dictInsert m (key o) o k).1 hmem with h1 | h1
        · exact hnd.1 (h1 ▸ hk)
        · exact hfresh k (List.mem_cons_of_mem _ hk) h1
      rw [ih _ hnd.2 hfr, length_dictInsert,
        if_neg (hfresh (key o) (List.mem_cons_self _ _))]
      simp only [List.length_cons]
      omega

/-- A record list with duplicate-free keys builds a map of its own
size. -/
theorem buildMap_length_of_nodup {α : Type} (key : α → String) (l : List α)
    (hnd : (l.map key).Nodup) : (buildMap key l).length = l.length := by
  rw [show buildMap key l = insertAll key [] l from rfl,
    length_insertAll_fresh key l [] hnd (by simp)]
  simp

/-- The merged record collection carries duplicate-free keys. -/
theorem mergeRecords_keys_nodup (existing news : List OppRecord)
    (sb : String) :
    ((mergeRecords existing news sb).1.map oppKey).Nodup := by
  have hperm := (mergeRecords_perm existing news sb).map oppKey
  rw [hperm.nodup_iff]
  rw [← map_fst_eq_map_key oppKey _ (mergeMap_consistent existing news)]
  exact mergeMap_keys_nodup existing news

/-- The merged record collection's key set is the union of the existing
and the new keys. -/
theorem mergeRecords_mem_keys (existing news : List OppRecord)
    (sb : String) (k : String) :
    k ∈ (mergeRecords existing news sb).1.map oppKey ↔
      (k ∈ existing.map oppKey ∨ k ∈ news.map oppKey) := by
  have hperm := (mergeRecords_perm existing news sb).map oppKey
  rw [hperm.mem_iff]
  rw [← map_fst_eq_map_key oppKey _ (mergeMap_consistent existing news)]
  rw [mem_keys_insertAll]
  rw [mem_keys_buildMap]

/-- Per key, the merged collection holds exactly the record the
last-write-wins rule prescribes: the last new record with the key when
one exists, else the last existing record with it. -/
theorem mergeRecords_filter_eq (existing news : List OppRecord)
    (sb : String) (k : String) :
    (mergeRecords existing news sb).1.filter (fun o => oppKey o == k)
      = (if k ∈ news.map oppKey
          then (news.filter (fun o => oppKey o == k)).getLast?
          else (existing.filter (fun o => oppKey o == k)).getLast?).toList := by
  have hperm := (mergeRecords_perm existing news sb).filter
    (fun o => oppKey o == k)
  have hsnd : ((insertAll oppKey (buildMap oppKey existing) news).map
        Prod.snd).filter (fun o => oppKey o == k)
      = (dictGet (insertAll oppKey (buildMap oppKey existing) news) k).toList := by
    rw [filter_map_snd oppKey k _ (mergeMap_consistent existing news),
      filter_eq_dictGet_toList _ k (mergeMap_keys_nodup existing news)]
  rw [hsnd, dictGet_mergeMap] at hperm
  exact perm_eq_of_length_le_one hperm (option_toList_length_le_one _)

/-- Counts reported for a single-record write. -/
theorem mergeRecords_counts_single (existing : List OppRecord)
    (d : OppRecord) (sb : String) :
    (mergeRecords existing [d] sb).2
      = if oppKey d ∈ existing.map oppKey then ((0 : Nat), (1 : Nat))
        else (1, 0) := by
  have h2 : (mergeRecords existing [d] sb).2
      = ((overlay oppKey (buildMap oppKey existing) [d]).2.1,
         (overlay oppKey (buildMap oppKey existing) [d]).2.2) := rfl
  rw [h2, overlay_single]
  by_cases hmem : oppKey d ∈ existing.map oppKey
  · rw [if_pos hmem,
      if_pos ((containsKey_buildMap oppKey existing (oppKey d)).2 hmem),
      if_pos ((containsKey_buildMap oppKey existing (oppKey d)).2 hmem)]
  · rw [if_neg hmem,
      if_neg (fun hc => hmem ((containsKey_buildMap oppKey existing (oppKey d)).1 hc)),
      if_neg (fun hc => hmem ((containsKey_buildMap oppKey existing (oppKey d)).1 hc))]

/-- Re-writing a record whose key is already present keeps the collection
size, provided the prior collection had duplicate-free keys. -/
theorem mergeRecords_length_update (res1 : List OppRecord) (d2 : OppRecord)
    (sb : String) (hnd : (res1.map oppKey).Nodup)
    (hmem : oppKey d2 ∈ res1.map oppKey) :
    (mergeRecords res1 [d2] sb).1.length = res1.length := by
  have hperm := mergeRecords_perm res1 [d2] sb
  rw [hperm.length_eq, List.length_map]
  rw [show insertAll oppKey (buildMap oppKey res1) [d2]
      = dictInsert (buildMap oppKey res1) (oppKey d2) d2 from rfl]
  rw [length_dictInsert,
    if_pos ((mem_keys_buildMap oppKey res1 (oppKey d2)).2 hmem)]
  exact buildMap_length_of_nodup oppKey res1 hnd

/-- C3: after a Result Store write over an existing persisted collection,
the collection holds exactly one record per distinct key drawn from the
union of the existing and the newly written keys, and on a key collision
the new record replaces the existing one entirely (last-write-wins); the
writers run exactly this merge on their parsed existing records, skipping
the write on the length-precondition failure. -/
theorem C3_merge_last_write_wins (existing news : List OppRecord)
    (sort_by : String) :
    ((mergeRecords existing news sort_by).1.map oppKey).Nodup ∧
    (∀ k, k ∈ (mergeRecords existing news sort_by).1.map oppKey ↔
        (k ∈ existing.map oppKey ∨ k ∈ news.map oppKey)) ∧
    (∀ k, (mergeRecords existing news sort_by).1.filter
          (fun o => oppKey o == k)
        = (if k ∈ news.map oppKey
            then (news.filter (fun o => oppKey o == k)).getLast?
            else (existing.filter (fun o => oppKey o == k)).getLast?).toList) ∧
    (∀ (issues : List GitHubIssue) (analyses : List OpportunityAnalysis)
        (now : String),
      write_json existing issues analyses now sort_by = none ∨
      write_json existing issues analyses now sort_by
        = some (mergeRecords existing
            ((issues.zip analyses).map
              (fun p => opportunity_to_dict p.1 p.2 now)) sort_by)) := by
  refine ⟨mergeRecords_keys_nodup existing news sort_by,
    fun k => mergeRecords_mem_keys existing news sort_by k,
    fun k => mergeRecords_filter_eq existing news sort_by k,
    ?_⟩
  intro issues analyses now
  by_cases hlen : issues.length ≠ analyses.length
  · left
    simp [write_json, hlen]
  · right
    simp [write_json, hlen]

/-- C4: writing one (issue, analysis) pair whose key is not yet persisted
reports new_count 1 and updated_count 0; immediately re-writing the same
pair reports new_count 0 and updated_count 1 and leaves the persisted
collection the same size. -/
theorem C4_idempotent_rewrite (existing : List OppRecord)
    (issue : GitHubIssue) (analysis : OpportunityAnalysis)
    (now now2 sb : String)
    (h : oppKey (opportunity_to_dict issue analysis now)
        ∉ existing.map oppKey) :
    ∃ res1 res2 : List OppRecord,
      write_json existing [issue] [analysis] now sb = some (res1, 1, 0) ∧
      write_json res1 [issue] [analysis] now2 sb = some (res2, 0, 1) ∧
      res2.length = res1.length := by
  refine ⟨(mergeRecords existing [opportunity_to_dict issue analysis now] sb).1,
    (mergeRecords
      (mergeRecords existing [opportunity_to_dict issue analysis now] sb).1
      [opportunity_to_dict issue analysis now2] sb).1, ?_, ?_, ?_⟩
  · show (if ¬([issue].length = [analysis].length) then none
      else some (mergeRecords existing
        [opportunity_to_dict issue analysis now] sb)) = _
    rw [if_neg (by simp)]
    have hc := mergeRecords_counts_single existing
      (opportunity_to_dict issue analysis now) sb
    rw [if_neg h] at hc
    rw [show mergeRecords existing [opportunity_to_dict issue analysis now] sb
        = ((mergeRecords existing
            [opportunity_to_dict issue analysis now] sb).1,
          (mergeRecords existing
            [opportunity_to_dict issue analysis now] sb).2) from rfl, hc]
  · show (if ¬([issue].length = [analysis].length) then none
      else some (mergeRecords
        (mergeRecords existing [opportunity_to_dict issue analysis now] sb).1
        [opportunity_to_dict issue analysis now2] sb)) = _
    rw [if_neg (by simp)]
    have hmem : oppKey (opportunity_to_dict issue analysis now2)
        ∈ (mergeRecords existing
            [opportunity_to_dict issue analysis now] sb).1.map oppKey := by
      rw [mergeRecords_mem_keys]
      right
      simp [oppKey, opportunity_to_dict]
    have hc := mergeRecords_counts_single
      (mergeRecords existing [opportunity_to_dict issue analysis now] sb).1
      (opportunity_to_dict issue analysis now2) sb
    rw [if_pos hmem] at hc
    rw [show mergeRecords
          (mergeRecords existing [opportunity_to_dict issue analysis now] sb).1
          [opportunity_to_dict issue analysis now2] sb
        = ((mergeRecords
            (mergeRecords existing [opportunity_to_dict issue analysis now] sb).1
            [opportunity_to_dict issue analysis now2] sb).1,
          (mergeRecords
            (mergeRecords existing [opportunity_to_dict issue analysis now] sb).1
            [opportunity_to_dict issue analysis now2] sb).2) from rfl, hc]
  · refine mergeRecords_length_update _ _ sb
      (mergeRecords_keys_nodup existing
        [opportunity_to_dict issue analysis now] sb) ?_
    rw [mergeRecords_mem_keys]
    right
    simp [oppKey, opportunity_to_dict]

/-- C4 witness: the concrete scenario — issue 1 of "X/Y" written twice
(score 30, then score 10) into an empty store. -/
theorem C4_witness :
    (oppKey (opportunity_to_dict sampleIssue sampleAnalysis30 "t1")
        ∉ ([] : List OppRecord).map oppKey) ∧
    (∃ res1 res2 : List OppRecord,
      write_json [] [sampleIssue] [sampleAnalysis30] "t1" "total_score"
          = some (res1, 1, 0) ∧
      write_json res1 [sampleIssue] [sampleAnalysis30] "t2" "total_score"
          = some (res2, 0, 1) ∧
      res2.length = res1.length) :=
  have h : oppKey (opportunity_to_dict sampleIssue sampleAnalysis30 "t1")
      ∉ ([] : List OppRecord).map oppKey := by simp
  ⟨h, C4_idempotent_rewrite [] sampleIssue sampleAnalysis30 "t1" "t2"
    "total_score" h⟩

/-- C7 counterexample: the CSV representation has no column for the issue
body, so two runs over issues differing only in body produce identical
tabular output while the structured (JSON) output differs — the two
representations do not carry the same field values for every record. -/
theorem C7_counterexample :
    write_csv_fresh [sampleIssue] [sampleAnalysis30] "t" "total_score"
        = write_csv_fresh [sampleIssueB] [sampleAnalysis30] "t" "total_score" ∧
    write_json [] [sampleIssue] [sampleAnalysis30] "t" "total_score"
        ≠ write_json [] [sampleIssueB] [sampleAnalysis30] "t" "total_score" := by
  constructor
  · decide
  · decide

/-- C7 (amended): over the same retained pairs and the same sort key
(with no prior persisted data), the tabular representation is exactly the
row-by-row flattening of the structured representation — same record
sequence and new/updated counts, each row determined by its structured
record with the label set flattened to a ", "-delimited string and the
optional fields encoded as empty strings — except that the issue body is
dropped from the tabular form. -/
theorem C7_representations_agree (issues : List GitHubIssue)
    (analyses : List OpportunityAnalysis) (now sort_by : String) :
    write_csv_fresh issues analyses now sort_by
      = (write_json [] issues analyses now sort_by).map
          (fun r => (r.1.map csvRowOf, r.2)) ∧
    (∀ o : OppRecord,
      (csvRowOf o).repo = o.repo ∧
      (csvRowOf o).repo_full_name = o.repo_full_name ∧
      (csvRowOf o).issue_number = o.issue_number ∧
      (csvRowOf o).labels = String.intercalate ", " o.labels ∧
      (csvRowOf o).total_score = o.ai_analysis.total_score ∧
      (csvRowOf o).product_idea = o.ai_analysis.product_idea.getD "" ∧
      (csvRowOf o).skip_reason = o.ai_analysis.skip_reason.getD "") := by
  constructor
  · unfold write_csv_fresh write_json
    by_cases h : issues.length ≠ analyses.length
    · simp [h]
    · simp [h]
  · intro o
    exact ⟨rfl, rfl, rfl, rfl, rfl, rfl, rfl⟩

end ProbFind
